import Mathlib

/-!
Verification of the core of the cf-cph VS Code extension: the judging engine
(per-test verdicts and the two run-all control flows), the companion-server
ingestion endpoint, the contest collection session (scope matching, dedup,
grace-delay resolution) and the per-contest processing queue.

Each definition is a shallow embedding of one function of the TypeScript
source; external collaborators (process execution, the output-correctness
predicate, `randomId`, timers) enter as explicit parameters or as events in
a trace.  JavaScript's single-threaded cooperative scheduler is modelled by
explicit interleavings of labelled events.
-/

namespace CfCph

/-- Test case of a problem (src/types: `id`, `input`, `output`, `original`). -/
structure TestCase where
  id : Nat
  input : String
  output : String
  original : Bool
deriving Repr, DecidableEq

/-- Result of running the compiled binary on one input (`runTestCase` in
executions.ts): exit code (`none` when the process never exited normally),
terminating signal if any, and the captured stdout / stderr. -/
structure RunResult where
  code : Option Int
  signal : Option String
  stdout : String
  stderr : String
deriving Repr, DecidableEq

/-- Mirror of `runSingle` in the run-all-status module: looks the test up by id
(`findIndex` over `problem.tests`), runs the binary on its input, and derives
the verdict.  `exec` stands for the external `runTestCase(language, binPath,
input)` collaborator, `isResultCorrect` for the external output-correctness
predicate of judge.ts, and `ignoreStderr` for `getIgnoreSTDERRORPref()`.
`true` is the PASS verdict, `false` is FAIL. -/
def runSingle (exec : String → RunResult) (isResultCorrect : TestCase → String → Bool)
    (ignoreStderr : Bool) (tests : List TestCase) (id : Nat) : Bool :=
  match tests.find? (fun tc => tc.id == id) with
  | none => false
  | some testCase =>
    let run := exec testCase.input
    let stderrorFailure := if ignoreStderr then false else decide (run.stderr ≠ "")
    let didError :=
      (decide (run.code ≠ none) && decide (run.code ≠ some 0))
        || decide (run.signal ≠ none) || stderrorFailure
    if didError then false else isResultCorrect testCase run.stdout

/-- Verdict as §4.4 of the spec words it: FAIL if the exit code is non-zero, or
a signal terminated the process, or stderr is non-empty while the configured
policy treats non-empty stderr as failure; otherwise the externally supplied
output-correctness predicate's result `correct`. -/
def judgeVerdictSpec (run : RunResult) (ignoreStderr : Bool) (correct : Bool) : Bool :=
  if (match run.code with | some c => decide (c ≠ 0) | none => false)
      || run.signal.isSome || (decide (run.stderr ≠ "") && !ignoreStderr) then
    false
  else correct

/-- Observable actions of one run-all invocation: the compiler call, the
webview messages and the per-test executions. -/
inductive RunEvent
  | compile
  | running (id : Nat)
  | runTest (id : Nat)
  | deleteBin
  | statusYay
  | statusNay
deriving Repr, DecidableEq

/-- Modelled from the spec: `runSingleAndSave` — the per-test runner the
guarded run-all awaits — lives in a module (processRunSingle) that is not
among the source files.  Per §4.5 it "produces the same per-test verdict as
above without advancing overall run-all state": it records the verdict but
neither halts the caller's iteration nor throws.  Its observable effect here
is the execution of the test it was given. -/
def runSingleAndSaveEvents (id : Nat) : List RunEvent := [RunEvent.runTest id]

/-- Mirror of the guarded run-all (the module whose `isRunning` flag guards
entry): a second call while the flag is set is a logged no-op; compile
failure returns at once (without resetting the flag); otherwise every test is
run in order, a 'running' message is sent before each, the binary is deleted
and the flag is cleared.  The value `runSingleAndSave` returns is discarded,
so verdicts play no part in the control flow.  Returns the new value of
`isRunning` and the events, in order. -/
def runAllSave (compileOk : Bool) (tests : List TestCase) (isRunning : Bool) :
    Bool × List RunEvent :=
  if isRunning then (isRunning, [])
  else if !compileOk then (true, [RunEvent.compile])
  else
    (false,
      RunEvent.compile ::
        (tests.map (fun tc => RunEvent.running tc.id :: runSingleAndSaveEvents tc.id)).flatten
          ++ [RunEvent.deleteBin])

/-- Loop of the run-all-status variant: `runSingle` on each test in order,
stopping after the first FAIL verdict.  `all` is the full `problem.tests`
list that `runSingle` looks ids up in.  Returns the per-test execution events
and whether every executed test passed. -/
def runAllStatusLoop (exec : String → RunResult) (isResultCorrect : TestCase → String → Bool)
    (ignoreStderr : Bool) (all : List TestCase) : List TestCase → List RunEvent × Bool
  | [] => ([], true)
  | tc :: rest =>
    if runSingle exec isResultCorrect ignoreStderr all tc.id then
      let r := runAllStatusLoop exec isResultCorrect ignoreStderr all rest
      (RunEvent.runTest tc.id :: r.1, r.2)
    else ([RunEvent.runTest tc.id], false)

/-- Mirror of the run-all-status variant (the module with `postStatus`): sets
its `isRunning` flag, compiles, runs the loop, and ends through `postStatus`,
which clears the flag and emits status-yay / status-nay; on the full-pass
path the binary is deleted first.  No 'running' message is ever sent.
Returns the final value of that module's `isRunning` flag and the events. -/
def runAllStatus (exec : String → RunResult) (isResultCorrect : TestCase → String → Bool)
    (ignoreStderr : Bool) (compileOk : Bool) (tests : List TestCase) :
    Bool × List RunEvent :=
  if !compileOk then (false, [RunEvent.compile, RunEvent.statusNay])
  else
    let r := runAllStatusLoop exec isResultCorrect ignoreStderr tests tests
    if r.2 then
      (false, RunEvent.compile :: r.1 ++ [RunEvent.deleteBin, RunEvent.statusYay])
    else (false, RunEvent.compile :: r.1 ++ [RunEvent.statusNay])

/-- Verdict the judge assigns to a test of a problem: `runSingle` asked for
the test's id. -/
def runVerdict (exec : String → RunResult) (isResultCorrect : TestCase → String → Bool)
    (ignoreStderr : Bool) (tests : List TestCase) (tc : TestCase) : Bool :=
  runSingle exec isResultCorrect ignoreStderr tests tc.id

/-- Ids of the tests a run actually executed, in execution order. -/
def executedIds (evs : List RunEvent) : List Nat :=
  evs.filterMap (fun e => match e with | RunEvent.runTest id => some id | _ => none)

/-- Ids announced by 'running' webview messages, in order. -/
def runningIds (evs : List RunEvent) : List Nat :=
  evs.filterMap (fun e => match e with | RunEvent.running id => some id | _ => none)

/-- Pending-submission record (`savedResponse`): the explicit empty marker
`CphEmptyResponse` or a stored `CphSubmitResponse`. -/
inductive SavedResp
  | empty
  | submit (url problemName sourceCode : String) (languageId : Nat)
deriving Repr, DecidableEq

/-- Escape of one character as `JSON.stringify` renders it inside a string
literal (quote, backslash and the common control characters; other characters
pass through). -/
def jsonEscapeChar (c : Char) : String :=
  if c = '"' then "\\\""
  else if c = '\\' then "\\\\"
  else if c = '\n' then "\\n"
  else if c = '\r' then "\\r"
  else if c = '\t' then "\\t"
  else String.singleton c

/-- JSON rendering of a string literal. -/
def jsonStr (s : String) : String :=
  "\"" ++ String.join (s.data.map jsonEscapeChar) ++ "\""

/-- Body the companion server writes: `JSON.stringify(savedResponse)`, with the
keys in the order the source constructs the records. -/
def stringifySaved : SavedResp → String
  | SavedResp.empty => "\x7b\"empty\":true\x7d"
  | SavedResp.submit url problemName sourceCode languageId =>
    "\x7b\"empty\":false,\"url\":" ++ jsonStr url
      ++ ",\"problemName\":" ++ jsonStr problemName
      ++ ",\"sourceCode\":" ++ jsonStr sourceCode
      ++ ",\"languageId\":" ++ toString languageId ++ "\x7d"

/-- Commands the extension can emit on the one-directional UI channel; only
the one this development needs is listed. -/
inductive UIEvent
  | submitFinished
deriving Repr, DecidableEq

/-- Outcome of one companion-server response: what was written to the socket,
the `savedResponse` slot afterwards, and the UI commands emitted. -/
structure CompanionHttpResult where
  written : String
  saved : SavedResp
  uiEvents : List UIEvent
deriving Repr, DecidableEq

/-- Mirror of `handleCompanionResponse` (the response path of
`setupCompanionServer`'s request handler): writes the JSON of the current
`savedResponse` first; when the request carries the `cph-submit: true` header
it then emits submit-finished if the echoed record was non-empty and resets
the slot to the empty marker. -/
def handleCompanionResponse (saved : SavedResp) (headers : List (String × String)) :
    CompanionHttpResult :=
  let written := stringifySaved saved
  if headers.lookup "cph-submit" = some "true" then
    let events := if saved ≠ SavedResp.empty then [UIEvent.submitFinished] else []
    ⟨written, SavedResp.empty, events⟩
  else ⟨written, saved, []⟩

/-- Raw test of a Competitive Companion payload; `none` models a field absent
from the JSON (JS `undefined`). -/
structure CompanionTestData where
  input : Option String
  output : Option String
deriving Repr, DecidableEq

/-- Fields of a raw Competitive Companion payload that the converters consume;
`none` models an absent field. -/
structure CompanionData where
  name : Option String
  url : Option String
  interactive : Option Bool
  memoryLimit : Option Nat
  timeLimit : Option Nat
  group : Option String
  tests : Option (List CompanionTestData)
deriving Repr, DecidableEq

/-- JS `x || d` for an optional string: `undefined` and `''` are falsy. -/
def jsOrStr (x : Option String) (d : String) : String :=
  match x with
  | none => d
  | some s => if s = "" then d else s

/-- JS `x || d` for an optional number: `undefined` and `0` are falsy. -/
def jsOrNat (x : Option Nat) (d : Nat) : Nat :=
  match x with
  | none => d
  | some 0 => d
  | some n => n

/-- JS `x || d` for an optional boolean. -/
def jsOrBool (x : Option Bool) (d : Bool) : Bool :=
  match x with
  | none => d
  | some b => if b then b else d

/-- Default memory limit from constants.ts.  The constants module is not among
the source files; the exact value is irrelevant to every theorem below — only
that the converters substitute it. -/
def DEFAULT_MEMORY_LIMIT : Nat := 1024

/-- Default time limit from constants.ts (see `DEFAULT_MEMORY_LIMIT`). -/
def DEFAULT_TIME_LIMIT : Nat := 3000

/-- Problem as the extension stores it (src/types). -/
structure Problem where
  name : String
  url : String
  interactive : Bool
  memoryLimit : Nat
  timeLimit : Nat
  group : String
  tests : List TestCase
  srcPath : String
deriving Repr, DecidableEq

/-- Mirror of `convertCompanionDataToProblem` (companion module): maps the raw
tests (`input`/`output` default to `''`, ids from `randomId()`), and defaults
every falsy field.  `ids i` stands for the value the i-th `randomId()` call
returns. -/
def convertCompanionDataToProblem (ids : Nat → Nat) (d : CompanionData) : Problem :=
  let tests := (d.tests.getD []).enum.map (fun p =>
    TestCase.mk (ids p.1) (jsOrStr p.2.input "") (jsOrStr p.2.output "") true)
  { name := jsOrStr d.name ""
    url := jsOrStr d.url ""
    interactive := jsOrBool d.interactive false
    memoryLimit := jsOrNat d.memoryLimit DEFAULT_MEMORY_LIMIT
    timeLimit := jsOrNat d.timeLimit DEFAULT_TIME_LIMIT
    group := jsOrStr d.group "local"
    tests := tests
    srcPath := "" }

/-- Mirror of `convertCompanionProblem` (createContest module): identical
defaulting, but each test's id is its index in the list. -/
def convertCompanionProblem (d : CompanionData) : Problem :=
  let tests := (d.tests.getD []).enum.map (fun p =>
    TestCase.mk p.1 (jsOrStr p.2.input "") (jsOrStr p.2.output "") true)
  { name := jsOrStr d.name ""
    url := jsOrStr d.url ""
    interactive := jsOrBool d.interactive false
    memoryLimit := jsOrNat d.memoryLimit DEFAULT_MEMORY_LIMIT
    timeLimit := jsOrNat d.timeLimit DEFAULT_TIME_LIMIT
    group := jsOrStr d.group "local"
    tests := tests
    srcPath := "" }

/-- Raw companion payload as the contest-collection listener sees it; only
`name` and `url` drive scope matching and dedup, so only they are modelled.
An absent `name` is modelled as `""` (both are JS-falsy in the listener's
`companionProblem.name &&` check). -/
structure Payload where
  name : String
  url : String
deriving Repr, DecidableEq

/-- JS `hay.includes(needle)`. -/
def strIncludes (hay needle : String) : Bool :=
  decide (needle.data <:+: hay.data)

/-- Whether `url` addresses an individual problem of the contest
(`url.includes("/contest/<id>/problem/")`). -/
def isIndividualProblem (contestId url : String) : Bool :=
  strIncludes url ("/contest/" ++ contestId ++ "/problem/")

/-- Whether `url` addresses the contest's shared listing page
(`url.includes("/contest/<id>/problems")`). -/
def isContestProblemsPage (contestId url : String) : Bool :=
  strIncludes url ("/contest/" ++ contestId ++ "/problems")

/-- Predicate of the listener's `problems.find`: name equality first (only
when the incoming payload's name is truthy), else exact URL equality (only
when the incoming URL is an individual-problem URL). -/
def dedupMatches (contestId : String) (incoming stored : Payload) : Bool :=
  (decide (incoming.name ≠ "") && decide (stored.name = incoming.name))
    || (isIndividualProblem contestId incoming.url && decide (stored.url = incoming.url))

/-- Grace delay (ms) before a completed session resolves
(`setTimeout(() => resolve(problems), 100)`). -/
def GRACE_DELAY : Nat := 100

/-- Hard collection timeout (ms), `300000` in the source. -/
def COLLECTION_TIMEOUT : Nat := 300000

/-- State of one collection session: the collected payloads in arrival order,
and the absolute times at which a grace-delay `resolve(problems)` timer has
been scheduled (the listener schedules one each time an append reaches
`expectedCount`). -/
structure CollectState where
  problems : List Payload
  graceAt : List Nat
deriving Repr, DecidableEq

/-- Body of `contestCreationListener` for one payload arriving at absolute
time `t` (ms since the session started): scope check against the contest's
individual-problem and listing-page URL segments, dedup via `problems.find`,
append on no match, and scheduling of the grace-delay resolution when the
appended count reaches `expectedCount`. -/
def contestCreationListener (contestId : String) (expectedCount : Nat)
    (s : CollectState) (t : Nat) (p : Payload) : CollectState :=
  if isIndividualProblem contestId p.url || isContestProblemsPage contestId p.url then
    match s.problems.find? (fun q => dedupMatches contestId p q) with
    | some _ => s
    | none =>
      let problems := s.problems ++ [p]
      if expectedCount ≤ problems.length then
        { problems := problems, graceAt := s.graceAt ++ [t + GRACE_DELAY] }
      else { problems := problems, graceAt := s.graceAt }
  else s

/-- Collection session driven over a list of timed arrivals, from the fresh
state `startContestProblemCollection` sets up. -/
def collectRun (contestId : String) (expectedCount : Nat)
    (arrivals : List (Nat × Payload)) : CollectState :=
  arrivals.foldl (fun s a => contestCreationListener contestId expectedCount s a.1 a.2)
    ⟨[], []⟩

/-- Time at which the session's promise resolves: a promise resolves at its
first `resolve` call, so at the earliest scheduled grace timer or at the hard
5-minute timeout, whichever is first. -/
def resolveTime (s : CollectState) : Nat :=
  s.graceAt.foldr min COLLECTION_TIMEOUT

/-- Value the promise resolves with: the grace timer passes `problems`; the
hard timeout passes `problems` when non-empty and `[]` otherwise. -/
def resolvedValue (s : CollectState) : List Payload :=
  if resolveTime s < COLLECTION_TIMEOUT then s.problems
  else if s.problems.isEmpty then [] else s.problems

/-- Every arrival is new to the session: processed in order starting from the
already-collected `acc`, no payload matches the dedup check against those
before it. -/
def allFresh (contestId : String) : List Payload → List (Nat × Payload) → Bool
  | _, [] => true
  | acc, a :: rest =>
    (acc.find? (fun q => dedupMatches contestId a.2 q)).isNone
      && allFresh contestId (acc ++ [a.2]) rest

/-- Grace-timer schedule produced by a run of in-scope, non-matching arrivals
when `k` payloads are already collected: the arrivals that push the count to
`expectedCount` or beyond each schedule a timer. -/
def graceTimes (expectedCount k : Nat) : List (Nat × Payload) → List Nat
  | [] => []
  | (t, _) :: rest =>
    if expectedCount ≤ k + 1 then (t + GRACE_DELAY) :: graceTimes expectedCount (k + 1) rest
    else graceTimes expectedCount (k + 1) rest

/-- Unit of asynchronous work handed to `ContestProcessingQueue.queue`: an
identifying tag, the labelled atomic steps its async body performs in order,
and whether the body ends by throwing. -/
structure SeqUnit where
  uid : Nat
  body : List Nat
  throws : Bool
deriving Repr, DecidableEq

/-- One contest's promise chain, as `queues.get(contestId)` realises it.
`previousPromise.then(processFn)` starts a unit's body only once every
earlier unit on the chain has settled, so the chain is the unit currently
executing (with the remaining steps of its body) plus the units chained
behind it, in enqueue order. -/
structure Chain where
  running : Option (SeqUnit × List Nat)
  pending : List SeqUnit
deriving Repr, DecidableEq

/-- Chain with nothing stored: `queues` has no entry for the id, so the next
enqueue chains onto `Promise.resolve()`. -/
def Chain.idle : Chain := ⟨none, []⟩

/-- Observable history of the sequencer: `exec` is one atomic step of a
unit's body; `settled` is the settling of a unit's promise — `threw = true`
means the body rejected and the chain's `.catch` logged the error (the chain
itself stays usable). -/
inductive SeqTrace
  | exec (contestId : String) (uid : Nat) (label : Nat)
  | settled (contestId : String) (uid : Nat) (threw : Bool)
deriving Repr, DecidableEq

/-- One scheduler micro-step of a chain: advance the running body by one step,
or settle a finished body (rejection caught by the `.catch`), or start the
next chained unit, or do nothing when the chain is idle. -/
def Chain.stepOne (contestId : String) : Chain → Chain × List SeqTrace
  | ⟨some (u, l :: rest), pending⟩ =>
    (⟨some (u, rest), pending⟩, [SeqTrace.exec contestId u.uid l])
  | ⟨some (u, []), pending⟩ =>
    (⟨none, pending⟩, [SeqTrace.settled contestId u.uid u.throws])
  | ⟨none, u :: ps⟩ => (⟨some (u, u.body), ps⟩, [])
  | ⟨none, []⟩ => (⟨none, []⟩, [])

/-- Mirror of `ContestProcessingQueue.queue`'s chaining: the new unit goes
behind everything already chained for the id (the code reads the stored tail
`queues.get(contestId) || Promise.resolve()` and stores
`previousPromise.then(...).catch(...)` back). -/
def Chain.enq (c : Chain) (u : SeqUnit) : Chain :=
  { c with pending := c.pending ++ [u] }

/-- Whether the chain's stored tail has settled with nothing chained after
it: exactly when the delayed cleanup's identity check
`queues.get(contestId) === currentPromise` passes. -/
def Chain.isIdle (c : Chain) : Bool :=
  c.running.isNone && c.pending.isEmpty

/-- Events of the sequencer system: `enq` is a call to `queue(contestId, fn)`
(it may happen while units are in flight, from another ingestion request);
`step` lets the single-threaded scheduler advance one contest's chain by a
micro-step; `cleanup` is the `setTimeout`-delayed removal of the map entry,
guarded by the identity check. -/
inductive QEvent
  | enq (contestId : String) (u : SeqUnit)
  | step (contestId : String)
  | cleanup (contestId : String)
deriving Repr, DecidableEq

/-- The `queues` map of `ContestProcessingQueue`, one chain per contest id
(an absent entry is the idle chain). -/
structure QueueSys where
  chains : String → Chain

/-- Fresh queue manager: `queues = new Map()`. -/
def QueueSys.init : QueueSys := ⟨fun _ => Chain.idle⟩

/-- Apply one event to the system, producing the trace it emits. -/
def QueueSys.apply (s : QueueSys) : QEvent → QueueSys × List SeqTrace
  | QEvent.enq cid u =>
    (⟨fun c => if c = cid then (s.chains cid).enq u else s.chains c⟩, [])
  | QEvent.step cid =>
    let r := (s.chains cid).stepOne cid
    (⟨fun c => if c = cid then r.1 else s.chains c⟩, r.2)
  | QEvent.cleanup cid =>
    if (s.chains cid).isIdle then
      (⟨fun c => if c = cid then Chain.idle else s.chains c⟩, [])
    else (s, [])

/-- Run the system over an interleaving of events, accumulating the trace. -/
def QueueSys.run : QueueSys → List QEvent → QueueSys × List SeqTrace
  | s, [] => (s, [])
  | s, e :: es =>
    let r := s.apply e
    let r2 := QueueSys.run r.1 es
    (r2.1, r.2 ++ r2.2)

/-- Steps of the trace belonging to one contest id, as (uid, label) pairs in
execution order. -/
def traceFor (contestId : String) (tr : List SeqTrace) : List (Nat × Nat) :=
  tr.filterMap (fun e => match e with
    | SeqTrace.exec c uid l => if c = contestId then some (uid, l) else none
    | SeqTrace.settled _ _ _ => none)

/-- Settling records of one contest id, as (uid, threw) pairs in settling
order. -/
def settledFor (contestId : String) (tr : List SeqTrace) : List (Nat × Bool) :=
  tr.filterMap (fun e => match e with
    | SeqTrace.exec _ _ _ => none
    | SeqTrace.settled c uid th => if c = contestId then some (uid, th) else none)

/-- Units enqueued for one contest id, in call order. -/
def enqueuedFor (contestId : String) (events : List QEvent) : List SeqUnit :=
  events.filterMap (fun e => match e with
    | QEvent.enq c u => if c = contestId then some u else none
    | _ => none)

/-- Units a single event enqueues for one contest id ([u] for a matching
`enq`, [] otherwise). -/
def enqOne (cid : String) (e : QEvent) : List SeqUnit :=
  match e with
  | QEvent.enq c u => if c = cid then [u] else []
  | _ => []

/-- Steps of one unit's body, tagged with its uid. -/
def unitSteps (u : SeqUnit) : List (Nat × Nat) :=
  u.body.map (fun l => (u.uid, l))

/-- Trace of running units strictly one after the other, in list order. -/
def seqFlatten (units : List SeqUnit) : List (Nat × Nat) :=
  (units.map unitSteps).flatten

/-- Settling records of running units strictly in list order. -/
def seqSettled (units : List SeqUnit) : List (Nat × Bool) :=
  units.map (fun u => (u.uid, u.throws))

/-- Scheduler steps needed to drain a chain completely. -/
def chainMeasure (c : Chain) : Nat :=
  (match c.running with
    | some (_, rem) => rem.length + 1
    | none => 0)
    + (c.pending.map (fun u => u.body.length + 2)).sum

/-- Iterated scheduler micro-steps on one chain. -/
def Chain.stepN (contestId : String) (c : Chain) : Nat → Chain × List SeqTrace
  | 0 => (c, [])
  | n + 1 =>
    let r := c.stepOne contestId
    let r2 := r.1.stepN contestId n
    (r2.1, r.2 ++ r2.2)

/-- Trace a chain still owes: the rest of the running body and its settling,
then each chained unit's body and settling in order. -/
def chainRemTrace (contestId : String) (c : Chain) : List SeqTrace :=
  (match c.running with
    | some (u, rem) =>
      rem.map (SeqTrace.exec contestId u.uid) ++ [SeqTrace.settled contestId u.uid u.throws]
    | none => [])
    ++ (c.pending.map (fun u =>
        u.body.map (SeqTrace.exec contestId u.uid)
          ++ [SeqTrace.settled contestId u.uid u.throws])).flatten

/-- Three-test problem used to evaluate the run controllers on concrete
inputs. -/
def demoTests : List TestCase :=
  [⟨1, "i1", "o1", true⟩, ⟨2, "i2", "o2", true⟩, ⟨3, "i3", "o3", true⟩]

/-- Process oracle for the demo runs: every execution exits 0, no signal,
empty output. -/
def demoExec : String → RunResult := fun _ => ⟨some 0, none, "", ""⟩

/-- Correctness oracle for the demo runs: every test passes except test 2. -/
def demoPred : TestCase → String → Bool := fun tc _ => decide (tc.id ≠ 2)

/-- Process oracle matching §8.6 of the spec: exit code 0 but a terminating
signal, with stdout `"4\n"`. -/
def signalExec : String → RunResult := fun _ => ⟨some 0, some "SIGKILL", "4\n", ""⟩

/-- Test fixture for the judge witness. -/
def judgeTest : TestCase := ⟨7, "1 2", "4", true⟩

/-- Listing-page payload with an empty (JS-falsy) name, as a batch ingestion
for contest 2167 produces when the upstream payload carries no name. -/
def listingPayload : Payload :=
  ⟨"", "https://codeforces.com/contest/2167/problems"⟩

/-- Invariant tying a chain to its history: some prefix `done` of the units
enqueued for the id has settled (in enqueue order), the next one may be
partway through its body, the rest are chained behind — and the trace emitted
so far is exactly the work of `done` plus the executed part of the running
unit.  This is the induction invariant for `QueueSys.run`. -/
def ChainInv (enq : List SeqUnit) (c : Chain) (tr : List (Nat × Nat))
    (st : List (Nat × Bool)) : Prop :=
  ∃ done : List SeqUnit,
    st = seqSettled done ∧
    (match c.running with
     | none => enq = done ++ c.pending ∧ tr = seqFlatten done
     | some (u, rem) => ∃ pre, u.body = pre ++ rem
         ∧ enq = done ++ u :: c.pending
         ∧ tr = seqFlatten done ++ pre.map (fun l => (u.uid, l)))

/-- Individual-problem payload A of contest 2167. -/
def problemA : Payload :=
  ⟨"A. Sum", "https://codeforces.com/contest/2167/problem/A"⟩

/-- Individual-problem payload B of contest 2167. -/
def problemB : Payload :=
  ⟨"B. Max", "https://codeforces.com/contest/2167/problem/B"⟩

/-- Individual-problem payload C of contest 2167. -/
def problemC : Payload :=
  ⟨"C. Min", "https://codeforces.com/contest/2167/problem/C"⟩

/-! ## Theorems -/

/-- C4: for every test-case run (a test the id lookup finds), the verdict is
FAIL iff the exit code is non-zero, or a terminating signal is present, or
stderr is non-empty while the policy does not ignore stderr; otherwise it is
exactly the external output-correctness predicate's value on the test case
and the captured stdout. -/
theorem C4_judge_fail_conditions (exec : String → RunResult)
    (isResultCorrect : TestCase → String → Bool) (ignoreStderr : Bool)
    (tests : List TestCase) (id : Nat) (tc : TestCase)
    (h : tests.find? (fun t => t.id == id) = some tc) :
    runSingle exec isResultCorrect ignoreStderr tests id
      = judgeVerdictSpec (exec tc.input) ignoreStderr
          (isResultCorrect tc (exec tc.input).stdout) := by
  simp only [runSingle, judgeVerdictSpec, h]
  rcases hx : exec tc.input with ⟨code, signal, out, err⟩
  rcases code with _ | c <;> rcases signal with _ | sg <;> cases ignoreStderr <;>
    simp [Option.isSome]

/-- Witness for C4 at a concrete input, realising the spec's example "exit
code 0, signal set implies verdict FAIL regardless of stdout". -/
theorem C4_judge_fail_conditions_witness :
    ([judgeTest].find? (fun t => t.id == 7) = some judgeTest)
    ∧ runSingle signalExec (fun _ _ => true) false [judgeTest] 7
        = judgeVerdictSpec (signalExec judgeTest.input) false true
    ∧ judgeVerdictSpec (signalExec judgeTest.input) false true = false :=
  ⟨by decide,
   C4_judge_fail_conditions signalExec (fun _ _ => true) false [judgeTest] 7 judgeTest
     (by decide),
   by decide⟩

/-- C7: the companion server's response body is always the JSON encoding of
the currently stored pending-submission record (the explicit empty marker
when none); the slot is reset to the empty marker exactly on requests with
the `cph-submit` header, is left unchanged otherwise, and submit-finished is
emitted exactly when such a request echoed a non-empty record. -/
theorem C7_companion_response_echo_clear (saved : SavedResp)
    (headers : List (String × String)) :
    (handleCompanionResponse saved headers).written = stringifySaved saved
    ∧ (handleCompanionResponse saved headers).saved
        = (if headers.lookup "cph-submit" = some "true" then SavedResp.empty else saved)
    ∧ ((handleCompanionResponse saved headers).saved = SavedResp.empty
        ↔ (headers.lookup "cph-submit" = some "true" ∨ saved = SavedResp.empty))
    ∧ (UIEvent.submitFinished ∈ (handleCompanionResponse saved headers).uiEvents
        ↔ (headers.lookup "cph-submit" = some "true" ∧ saved ≠ SavedResp.empty)) := by
  by_cases hh : headers.lookup "cph-submit" = some "true" <;>
    by_cases hs : saved = SavedResp.empty <;>
      simp [handleCompanionResponse, hh, hs]

/-- C8: in the guarded run-all, a compile failure returns with the in-progress
flag still `true` and no test executed; every subsequent invocation then hits
the entry guard and is a complete no-op — no compilation, no tests, no
events. -/
theorem C8_guard_stuck_after_compile_failure (tests₁ tests₂ : List TestCase)
    (compileOk₂ : Bool) :
    runAllSave false tests₁ false = (true, [RunEvent.compile])
    ∧ runAllSave compileOk₂ tests₂ (runAllSave false tests₁ false).1 = (true, [])
    ∧ executedIds (runAllSave false tests₁ false).2 = [] := by
  refine ⟨by simp [runAllSave], ?_, by simp [runAllSave, executedIds]⟩
  simp [runAllSave]

/-- C10: both converters substitute the default memory and time limits
whenever the upstream field is falsy — in particular an explicit upstream `0`
is replaced by the default, not preserved — and substitute `''` for a missing
name or url and `'local'` for a missing group; truthy values are kept. -/
theorem C10_converters_default_falsy_fields (ids : Nat → Nat) (d : CompanionData) :
    (convertCompanionDataToProblem ids { d with memoryLimit := some 0 }).memoryLimit
        = DEFAULT_MEMORY_LIMIT
    ∧ (convertCompanionDataToProblem ids { d with memoryLimit := none }).memoryLimit
        = DEFAULT_MEMORY_LIMIT
    ∧ (∀ n : Nat, (convertCompanionDataToProblem ids
        { d with memoryLimit := some (n + 1) }).memoryLimit = n + 1)
    ∧ (convertCompanionDataToProblem ids { d with timeLimit := some 0 }).timeLimit
        = DEFAULT_TIME_LIMIT
    ∧ (convertCompanionDataToProblem ids { d with timeLimit := none }).timeLimit
        = DEFAULT_TIME_LIMIT
    ∧ (∀ n : Nat, (convertCompanionDataToProblem ids
        { d with timeLimit := some (n + 1) }).timeLimit = n + 1)
    ∧ (convertCompanionDataToProblem ids { d with name := none }).name = ""
    ∧ (convertCompanionDataToProblem ids { d with url := none }).url = ""
    ∧ (convertCompanionDataToProblem ids { d with group := none }).group = "local"
    ∧ (convertCompanionDataToProblem ids { d with group := some "" }).group = "local"
    ∧ (convertCompanionProblem { d with memoryLimit := some 0 }).memoryLimit
        = DEFAULT_MEMORY_LIMIT
    ∧ (∀ n : Nat, (convertCompanionProblem
        { d with memoryLimit := some (n + 1) }).memoryLimit = n + 1)
    ∧ (convertCompanionProblem { d with timeLimit := some 0 }).timeLimit
        = DEFAULT_TIME_LIMIT
    ∧ (convertCompanionProblem { d with name := none }).name = ""
    ∧ (convertCompanionProblem { d with url := none }).url = ""
    ∧ (convertCompanionProblem { d with group := none }).group = "local" := by
  refine ⟨?_, ?_, ?_, ?_, ?_, ?_, ?_, ?_, ?_, ?_, ?_, ?_, ?_, ?_, ?_, ?_⟩ <;>
    simp [convertCompanionDataToProblem, convertCompanionProblem, jsOrNat, jsOrStr]

/-- C9: an in-scope payload whose name is absent/empty and whose URL matches
only the shared listing-page segment matches no stored entry — the name
branch needs a truthy incoming name, the URL branch an individual-problem
URL — so it is always appended, whatever is already stored (including an
identical payload). -/
theorem C9_empty_name_listing_payload_always_appended (cid : String)
    (expectedCount : Nat) (s : CollectState) (t : Nat) (p : Payload)
    (hname : p.name = "") (hind : isIndividualProblem cid p.url = false)
    (hlist : isContestProblemsPage cid p.url = true) :
    (contestCreationListener cid expectedCount s t p).problems = s.problems ++ [p] := by
  have hfind : s.problems.find? (fun q => dedupMatches cid p q) = none := by
    rw [List.find?_eq_none]
    intro q _
    simp [dedupMatches, hname, hind]
  unfold contestCreationListener
  rw [hind, hlist]
  simp only [Bool.false_or, if_true, hfind]
  split <;> rfl

/-- Witness for C9: the identical listing-page payload (empty name) is already
stored, and the dedup still appends the new copy. -/
theorem C9_empty_name_listing_payload_always_appended_witness :
    listingPayload.name = ""
    ∧ isIndividualProblem "2167" listingPayload.url = false
    ∧ isContestProblemsPage "2167" listingPayload.url = true
    ∧ (contestCreationListener "2167" 5 ⟨[listingPayload], []⟩ 0 listingPayload).problems
        = [listingPayload] ++ [listingPayload] :=
  ⟨rfl, by decide, by decide,
   C9_empty_name_listing_payload_always_appended "2167" 5 ⟨[listingPayload], []⟩ 0
     listingPayload rfl (by decide) (by decide)⟩

/-- C5 counterexample: on the concrete demo problem, a compile failure in the
guarded run-all leaves the in-progress flag set (the controller does not
return to IDLE) and emits no aggregate FAIL status (while indeed executing no
test), contrary to the claim. -/
theorem C5_compile_failure_counterexample :
    (runAllSave false demoTests false).1 = true
    ∧ RunEvent.statusNay ∉ (runAllSave false demoTests false).2
    ∧ executedIds (runAllSave false demoTests false).2 = [] := by decide

/-- C5 amended: on compile failure the run-all-status variant aborts with
aggregate FAIL, executes no test and returns to IDLE; the guarded run-all
variant likewise executes no test (and produces no binary to retain), but it
emits no status at all and leaves its in-progress flag set. -/
theorem C5_compile_failure_amended (exec : String → RunResult)
    (isResultCorrect : TestCase → String → Bool) (ignoreStderr : Bool)
    (tests tests' : List TestCase) :
    runAllStatus exec isResultCorrect ignoreStderr false tests
        = (false, [RunEvent.compile, RunEvent.statusNay])
    ∧ executedIds (runAllStatus exec isResultCorrect ignoreStderr false tests).2 = []
    ∧ runAllSave false tests' false = (true, [RunEvent.compile])
    ∧ executedIds (runAllSave false tests' false).2 = [] := by
  refine ⟨by simp [runAllStatus], ?_, by simp [runAllSave], by simp [runAllSave, executedIds]⟩
  simp [runAllStatus, executedIds]

theorem executedIds_map_runTest (l : List TestCase) :
    executedIds (l.map (fun tc => RunEvent.runTest tc.id)) = l.map (fun tc => tc.id) := by
  induction l with
  | nil => rfl
  | cons tc r ih => simp [executedIds] at ih ⊢; exact ih

theorem interleaved_executedIds (tests : List TestCase) :
    executedIds ((tests.map
        (fun tc => [RunEvent.running tc.id, RunEvent.runTest tc.id])).flatten)
      = tests.map (fun tc => tc.id) := by
  induction tests with
  | nil => rfl
  | cons tc r ih => simp [executedIds] at ih ⊢; exact ih

theorem interleaved_runningIds (tests : List TestCase) :
    runningIds ((tests.map
        (fun tc => [RunEvent.running tc.id, RunEvent.runTest tc.id])).flatten)
      = tests.map (fun tc => tc.id) := by
  induction tests with
  | nil => rfl
  | cons tc r ih => simp [runningIds] at ih ⊢; exact ih

theorem executedIds_append (a b : List RunEvent) :
    executedIds (a ++ b) = executedIds a ++ executedIds b := by
  simp [executedIds, List.filterMap_append]

theorem runningIds_append (a b : List RunEvent) :
    runningIds (a ++ b) = runningIds a ++ runningIds b := by
  simp [runningIds, List.filterMap_append]

theorem runningIds_map_runTest (l : List TestCase) :
    runningIds (l.map (fun tc => RunEvent.runTest tc.id)) = [] := by
  induction l with
  | nil => rfl
  | cons tc r ih => simp [runningIds, ih]

theorem executedIds_cons_compile (l : List RunEvent) :
    executedIds (RunEvent.compile :: l) = executedIds l := rfl

theorem runningIds_cons_compile (l : List RunEvent) :
    runningIds (RunEvent.compile :: l) = runningIds l := rfl

theorem runAllStatusLoop_spec (exec : String → RunResult)
    (isResultCorrect : TestCase → String → Bool) (ignoreStderr : Bool)
    (all rest : List TestCase) :
    runAllStatusLoop exec isResultCorrect ignoreStderr all rest
      = ((rest.takeWhile (runVerdict exec isResultCorrect ignoreStderr all)).map
            (fun tc => RunEvent.runTest tc.id)
          ++ ((rest.dropWhile (runVerdict exec isResultCorrect ignoreStderr all)).head?.map
            (fun tc => RunEvent.runTest tc.id)).toList,
         rest.all (runVerdict exec isResultCorrect ignoreStderr all)) := by
  induction rest with
  | nil => rfl
  | cons tc r ih =>
    have hv' : runSingle exec isResultCorrect ignoreStderr all tc.id
        = runVerdict exec isResultCorrect ignoreStderr all tc := rfl
    cases hv : runVerdict exec isResultCorrect ignoreStderr all tc
    · simp [runAllStatusLoop, hv', hv, List.takeWhile_cons, List.dropWhile_cons,
        List.all_cons]
    · simp [runAllStatusLoop, hv', hv, List.takeWhile_cons, List.dropWhile_cons,
        List.all_cons, ih]

theorem runAllStatus_events (exec : String → RunResult)
    (isResultCorrect : TestCase → String → Bool) (ignoreStderr : Bool)
    (tests : List TestCase) :
    runAllStatus exec isResultCorrect ignoreStderr true tests
      = (false, RunEvent.compile ::
          (tests.takeWhile (runVerdict exec isResultCorrect ignoreStderr tests)).map
            (fun tc => RunEvent.runTest tc.id)
          ++ ((tests.dropWhile (runVerdict exec isResultCorrect ignoreStderr tests)).head?.map
            (fun tc => RunEvent.runTest tc.id)).toList
          ++ (if tests.all (runVerdict exec isResultCorrect ignoreStderr tests) then
              [RunEvent.deleteBin, RunEvent.statusYay]
            else [RunEvent.statusNay])) := by
  cases hall : tests.all (runVerdict exec isResultCorrect ignoreStderr tests) <;>
    simp [runAllStatus, runAllStatusLoop_spec, hall]

/-- C1 counterexample: over the demo problem whose second test fails (first
conjunct), the guarded run-all — the variant that emits 'running' messages —
still executes the third test and never reports an aggregate status, and the
run-all-status variant — the one that halts at the first FAIL with aggregate
FAIL — emits no 'now running test id' message at all.  No single run-all
operation of the code satisfies the claim's conjunction. -/
theorem C1_run_all_counterexample :
    runSingle demoExec demoPred false demoTests 2 = false
    ∧ RunEvent.runTest 3 ∈ (runAllSave true demoTests false).2
    ∧ RunEvent.statusNay ∉ (runAllSave true demoTests false).2
    ∧ runningIds (runAllStatus demoExec demoPred false true demoTests).2 = [] := by
  decide

/-- C1 amended: the guarded run-all emits 'running' immediately before each
test and executes every test in order regardless of verdicts, reporting no
aggregate status; the run-all-status variant executes tests in order up to
and including the first FAIL (tests after it are not executed), reports
aggregate FAIL exactly when some test fails and PASS when all pass, and
returns its flag to idle, but emits no 'running' message. -/
theorem C1_run_all_amended (exec : String → RunResult)
    (isResultCorrect : TestCase → String → Bool) (ignoreStderr : Bool)
    (tests : List TestCase) :
    (runAllSave true tests false).1 = false
    ∧ (runAllSave true tests false).2
        = RunEvent.compile ::
            (tests.map (fun tc => [RunEvent.running tc.id, RunEvent.runTest tc.id])).flatten
            ++ [RunEvent.deleteBin]
    ∧ executedIds (runAllSave true tests false).2 = tests.map (fun tc => tc.id)
    ∧ runningIds (runAllSave true tests false).2 = tests.map (fun tc => tc.id)
    ∧ RunEvent.statusNay ∉ (runAllSave true tests false).2
    ∧ RunEvent.statusYay ∉ (runAllSave true tests false).2
    ∧ executedIds (runAllStatus exec isResultCorrect ignoreStderr true tests).2
        = (tests.takeWhile (runVerdict exec isResultCorrect ignoreStderr tests)).map
            (fun tc => tc.id)
          ++ (((tests.dropWhile (runVerdict exec isResultCorrect ignoreStderr tests)).head?).map
            (fun tc => tc.id)).toList
    ∧ runningIds (runAllStatus exec isResultCorrect ignoreStderr true tests).2 = []
    ∧ (RunEvent.statusNay ∈ (runAllStatus exec isResultCorrect ignoreStderr true tests).2
        ↔ ¬ ∀ tc ∈ tests, runVerdict exec isResultCorrect ignoreStderr tests tc = true)
    ∧ (RunEvent.statusYay ∈ (runAllStatus exec isResultCorrect ignoreStderr true tests).2
        ↔ ∀ tc ∈ tests, runVerdict exec isResultCorrect ignoreStderr tests tc = true)
    ∧ (runAllStatus exec isResultCorrect ignoreStderr true tests).1 = false := by
  have hsave : (runAllSave true tests false).2
      = RunEvent.compile ::
          (tests.map (fun tc => [RunEvent.running tc.id, RunEvent.runTest tc.id])).flatten
          ++ [RunEvent.deleteBin] := by
    simp [runAllSave, runSingleAndSaveEvents]
  have hevents : (runAllStatus exec isResultCorrect ignoreStderr true tests).2
      = RunEvent.compile ::
          (tests.takeWhile (runVerdict exec isResultCorrect ignoreStderr tests)).map
            (fun tc => RunEvent.runTest tc.id)
          ++ ((tests.dropWhile (runVerdict exec isResultCorrect ignoreStderr tests)).head?.map
            (fun tc => RunEvent.runTest tc.id)).toList
          ++ (if tests.all (runVerdict exec isResultCorrect ignoreStderr tests) then
              [RunEvent.deleteBin, RunEvent.statusYay]
            else [RunEvent.statusNay]) := by
    rw [runAllStatus_events]
  have htail : executedIds (((tests.dropWhile
        (runVerdict exec isResultCorrect ignoreStderr tests)).head?.map
          (fun tc => RunEvent.runTest tc.id)).toList)
      = (((tests.dropWhile (runVerdict exec isResultCorrect ignoreStderr tests)).head?).map
          (fun tc => tc.id)).toList := by
    rcases (tests.dropWhile (runVerdict exec isResultCorrect ignoreStderr tests)).head?
      with _ | tc <;> simp [executedIds]
  have hrtail : runningIds (((tests.dropWhile
        (runVerdict exec isResultCorrect ignoreStderr tests)).head?.map
          (fun tc => RunEvent.runTest tc.id)).toList) = [] := by
    rcases (tests.dropWhile (runVerdict exec isResultCorrect ignoreStderr tests)).head?
      with _ | tc <;> simp [runningIds]
  refine ⟨by simp [runAllSave], hsave, ?_, ?_, ?_, ?_, ?_, ?_, ?_, ?_, ?_⟩
  · rw [hsave]
    simpa [executedIds] using interleaved_executedIds tests
  · rw [hsave]
    simpa [runningIds] using interleaved_runningIds tests
  · rw [hsave]
    simp [List.mem_flatten]
  · rw [hsave]
    simp [List.mem_flatten]
  · rw [hevents, executedIds_append, executedIds_append, executedIds_cons_compile,
      htail, executedIds_map_runTest]
    split <;> simp [executedIds]
  · rw [hevents, runningIds_append, runningIds_append, runningIds_cons_compile,
      hrtail, runningIds_map_runTest]
    split <;> simp [runningIds]
  · rw [hevents]
    cases hall : tests.all (runVerdict exec isResultCorrect ignoreStderr tests) <;>
      simp [hall, ← List.all_eq_true]
  · rw [hevents]
    cases hall : tests.all (runVerdict exec isResultCorrect ignoreStderr tests) <;>
      simp [hall, ← List.all_eq_true]
  · rw [runAllStatus_events]

theorem listener_name_count (cid : String) (n : Nat) (s : CollectState) (t : Nat)
    (p : Payload) (name : String) (hname : name ≠ "")
    (h : (s.problems.filter (fun q => decide (q.name = name))).length ≤ 1) :
    ((contestCreationListener cid n s t p).problems.filter
        (fun q => decide (q.name = name))).length ≤ 1 := by
  cases hscope : isIndividualProblem cid p.url || isContestProblemsPage cid p.url
  · simpa [contestCreationListener, hscope] using h
  · rcases hfind : s.problems.find? (fun q => dedupMatches cid p q) with _ | q
    · by_cases hpn : p.name = name
      · have hzero : s.problems.filter (fun q => decide (q.name = name)) = [] := by
          rw [List.filter_eq_nil_iff]
          intro q hq
          have hnm := List.find?_eq_none.mp hfind q hq
          simp only [dedupMatches, Bool.or_eq_true, Bool.and_eq_true, decide_eq_true_eq,
            not_or, not_and] at hnm
          simp only [decide_eq_true_eq]
          intro hqn
          exact hnm.1 (fun hpe => (hname (hpn ▸ hpe) : False)) (hqn.trans hpn.symm)
        simp only [contestCreationListener, hscope, if_true, hfind]
        split <;> simp [List.filter_append, hzero, hpn]
      · simp only [contestCreationListener, hscope, if_true, hfind]
        split <;> simpa [List.filter_append, hpn] using h
    · simpa [contestCreationListener, hscope, hfind] using h

theorem collectFold_name_count (cid : String) (n : Nat) (name : String)
    (hname : name ≠ "") :
    ∀ (arrivals : List (Nat × Payload)) (s : CollectState),
      (s.problems.filter (fun q => decide (q.name = name))).length ≤ 1 →
      (((arrivals.foldl (fun s a => contestCreationListener cid n s a.1 a.2) s).problems).filter
          (fun q => decide (q.name = name))).length ≤ 1
  | [], _, h => h
  | a :: rest, s, h =>
    collectFold_name_count cid n name hname rest _
      (listener_name_count cid n s a.1 a.2 name hname h)

/-- C3 counterexample: two identical listing-page payloads with an empty name
are both collected (neither branch of the dedup can match them), so the
resolved collection holds two entries of the same name — "at most one entry
per distinct name" fails as stated for the empty name. -/
theorem C3_dedup_counterexample :
    ¬ (((collectRun "2167" 5 [(0, listingPayload), (10, listingPayload)]).problems.filter
        (fun q => decide (q.name = ""))).length ≤ 1) := by
  decide

/-- C3 amended: the collected list holds at most one entry per distinct
non-empty name (payloads whose name is empty — JS-falsy — can repeat, see the
counterexample), and the dedup predicate matches either by name equality with
a truthy incoming name, or by exact URL equality only when the incoming URL
is an individual-problem URL — never for the shared listing-page URL. -/
theorem C3_dedup_amended (cid : String) (n : Nat) (arrivals : List (Nat × Payload))
    (name : String) (hname : name ≠ "") :
    (((collectRun cid n arrivals).problems.filter
        (fun q => decide (q.name = name))).length ≤ 1)
    ∧ ∀ p q : Payload, dedupMatches cid p q = true →
        (p.name ≠ "" ∧ q.name = p.name)
          ∨ (isIndividualProblem cid p.url = true ∧ q.url = p.url) := by
  constructor
  · exact collectFold_name_count cid n name hname arrivals ⟨[], []⟩ (by simp)
  · intro p q h
    simpa [dedupMatches, Bool.or_eq_true, Bool.and_eq_true, decide_eq_true_eq] using h

/-- Witness for C3 amended at a concrete session of contest 2167. -/
theorem C3_dedup_amended_witness :
    ("A. Sum" ≠ "")
    ∧ ((((collectRun "2167" 5 [(0, problemA), (3, problemB)]).problems.filter
          (fun q => decide (q.name = "A. Sum"))).length ≤ 1)
        ∧ ∀ p q : Payload, dedupMatches "2167" p q = true →
            (p.name ≠ "" ∧ q.name = p.name)
              ∨ (isIndividualProblem "2167" p.url = true ∧ q.url = p.url)) :=
  ⟨by decide, C3_dedup_amended "2167" 5 [(0, problemA), (3, problemB)] "A. Sum" (by decide)⟩

theorem collectFold_spec (cid : String) (n : Nat) :
    ∀ (arrivals : List (Nat × Payload)) (s : CollectState),
      (∀ a ∈ arrivals,
        (isIndividualProblem cid a.2.url || isContestProblemsPage cid a.2.url) = true) →
      allFresh cid s.problems arrivals = true →
      arrivals.foldl (fun s a => contestCreationListener cid n s a.1 a.2) s
        = ⟨s.problems ++ arrivals.map (fun a => a.2),
           s.graceAt ++ graceTimes n s.problems.length arrivals⟩ := by
  intro arrivals
  induction arrivals with
  | nil => intro s _ _; simp [graceTimes]
  | cons a rest ih =>
    intro s hscope hfresh
    have hsc := hscope a (by simp)
    simp only [allFresh, Bool.and_eq_true, Option.isNone_iff_eq_none] at hfresh
    have hstep : contestCreationListener cid n s a.1 a.2
        = ⟨s.problems ++ [a.2],
           s.graceAt ++ (if n ≤ s.problems.length + 1 then [a.1 + GRACE_DELAY] else [])⟩ := by
      simp only [contestCreationListener, hsc, if_true, hfresh.1]
      simp only [List.length_append, List.length_singleton]
      split <;> simp
    rw [List.foldl_cons, hstep, ih _ (fun b hb => hscope b (by simp [hb])) hfresh.2]
    simp only [List.length_append, List.length_singleton, List.map_cons, graceTimes]
    split <;> simp

theorem graceTimes_last (n : Nat) :
    ∀ (arrivals : List (Nat × Payload)) (k tl : Nat),
      k + arrivals.length = n →
      (arrivals.map (fun a => a.1)).getLast? = some tl →
      graceTimes n k arrivals = [tl + GRACE_DELAY]
  | [], k, tl, _, hlast => by simp at hlast
  | (t, p) :: rest, k, tl, hlen, hlast => by
    cases rest with
    | nil =>
      have hk : n ≤ k + 1 := by simp at hlen; omega
      have ht : tl = t := by simp at hlast; omega
      simp [graceTimes, hk, ht]
    | cons b rest' =>
      have hk : ¬ n ≤ k + 1 := by simp at hlen; omega
      have hlast' : ((b :: rest').map (fun a => a.1)).getLast? = some tl := by
        rw [← hlast]; simp [List.getLast?_cons_cons]
      have hlen' : k + 1 + (b :: rest').length = n := by simp at hlen ⊢; omega
      simp only [graceTimes, if_neg hk]
      exact graceTimes_last n (b :: rest') (k + 1) tl hlen' hlast'

/-- C6: a session whose expected count equals the number of distinct in-scope
arrivals collects all of them; the last append schedules a resolve after the
fixed grace delay (strictly later than the arrival — not immediate), and the
promise resolves with exactly those entries at that time, strictly before the
hard timeout. -/
theorem C6_grace_delay_resolution (cid : String) (arrivals : List (Nat × Payload))
    (tl : Nat)
    (hscope : ∀ a ∈ arrivals,
      (isIndividualProblem cid a.2.url || isContestProblemsPage cid a.2.url) = true)
    (hfresh : allFresh cid [] arrivals = true)
    (hlast : (arrivals.map (fun a => a.1)).getLast? = some tl)
    (htime : tl + GRACE_DELAY < COLLECTION_TIMEOUT) :
    (collectRun cid arrivals.length arrivals).problems = arrivals.map (fun a => a.2)
    ∧ (collectRun cid arrivals.length arrivals).graceAt = [tl + GRACE_DELAY]
    ∧ resolveTime (collectRun cid arrivals.length arrivals) = tl + GRACE_DELAY
    ∧ tl < resolveTime (collectRun cid arrivals.length arrivals)
    ∧ resolveTime (collectRun cid arrivals.length arrivals) < COLLECTION_TIMEOUT
    ∧ resolvedValue (collectRun cid arrivals.length arrivals)
        = arrivals.map (fun a => a.2) := by
  have hrun : collectRun cid arrivals.length arrivals
      = ⟨arrivals.map (fun a => a.2), graceTimes arrivals.length 0 arrivals⟩ := by
    simpa [collectRun] using
      collectFold_spec cid arrivals.length arrivals ⟨[], []⟩ hscope hfresh
  have hg : graceTimes arrivals.length 0 arrivals = [tl + GRACE_DELAY] :=
    graceTimes_last arrivals.length arrivals 0 tl (by omega) hlast
  rw [hrun, hg]
  have hrt : resolveTime ⟨arrivals.map (fun a => a.2), [tl + GRACE_DELAY]⟩
      = tl + GRACE_DELAY := by
    simp [resolveTime, Nat.min_eq_left htime.le]
  refine ⟨rfl, rfl, hrt, ?_, ?_, ?_⟩
  · rw [hrt]; simp [GRACE_DELAY]
  · rw [hrt]; exact htime
  · simp [resolvedValue, hrt, htime]

/-- Witness for C6: three distinct in-scope payloads for contest 2167 arriving
at times 0, 3, 9 with expected count 3. -/
theorem C6_grace_delay_resolution_witness :
    (∀ a ∈ [(0, problemA), (3, problemB), (9, problemC)],
      (isIndividualProblem "2167" a.2.url || isContestProblemsPage "2167" a.2.url) = true)
    ∧ allFresh "2167" [] [(0, problemA), (3, problemB), (9, problemC)] = true
    ∧ ([(0, problemA), (3, problemB), (9, problemC)].map
        (fun a => a.1)).getLast? = some 9
    ∧ 9 + GRACE_DELAY < COLLECTION_TIMEOUT
    ∧ ((collectRun "2167" ([(0, problemA), (3, problemB), (9, problemC)] :
          List (Nat × Payload)).length [(0, problemA), (3, problemB), (9, problemC)]).problems
        = [(0, problemA), (3, problemB), (9, problemC)].map (fun a => a.2)
      ∧ (collectRun "2167" ([(0, problemA), (3, problemB), (9, problemC)] :
          List (Nat × Payload)).length [(0, problemA), (3, problemB), (9, problemC)]).graceAt
        = [9 + GRACE_DELAY]
      ∧ resolveTime (collectRun "2167" ([(0, problemA), (3, problemB), (9, problemC)] :
          List (Nat × Payload)).length [(0, problemA), (3, problemB), (9, problemC)])
        = 9 + GRACE_DELAY
      ∧ 9 < resolveTime (collectRun "2167" ([(0, problemA), (3, problemB), (9, problemC)] :
          List (Nat × Payload)).length [(0, problemA), (3, problemB), (9, problemC)])
      ∧ resolveTime (collectRun "2167" ([(0, problemA), (3, problemB), (9, problemC)] :
          List (Nat × Payload)).length [(0, problemA), (3, problemB), (9, problemC)])
        < COLLECTION_TIMEOUT
      ∧ resolvedValue (collectRun "2167" ([(0, problemA), (3, problemB), (9, problemC)] :
          List (Nat × Payload)).length [(0, problemA), (3, problemB), (9, problemC)])
        = [(0, problemA), (3, problemB), (9, problemC)].map (fun a => a.2)) :=
  ⟨by decide, by decide, by decide, by decide,
   C6_grace_delay_resolution "2167" [(0, problemA), (3, problemB), (9, problemC)] 9
     (by decide) (by decide) (by decide) (by decide)⟩

theorem seqFlatten_append (a b : List SeqUnit) :
    seqFlatten (a ++ b) = seqFlatten a ++ seqFlatten b := by
  simp [seqFlatten]

theorem seqFlatten_cons (u : SeqUnit) (l : List SeqUnit) :
    seqFlatten (u :: l) = unitSteps u ++ seqFlatten l := by
  simp [seqFlatten]

theorem seqSettled_append (a b : List SeqUnit) :
    seqSettled (a ++ b) = seqSettled a ++ seqSettled b := by
  simp [seqSettled]

theorem traceFor_append (cid : String) (a b : List SeqTrace) :
    traceFor cid (a ++ b) = traceFor cid a ++ traceFor cid b := by
  simp [traceFor, List.filterMap_append]

theorem settledFor_append (cid : String) (a b : List SeqTrace) :
    settledFor cid (a ++ b) = settledFor cid a ++ settledFor cid b := by
  simp [settledFor, List.filterMap_append]

theorem enqueuedFor_cons (cid : String) (e : QEvent) (es : List QEvent) :
    enqueuedFor cid (e :: es) = enqOne cid e ++ enqueuedFor cid es := by
  rcases e with ⟨c, u⟩ | c | c <;>
    simp only [enqueuedFor, enqOne, List.filterMap_cons]
  · by_cases hcc : c = cid <;> simp [hcc]
  · simp
  · simp

theorem chainInv_init : ChainInv [] Chain.idle [] [] := by
  refine ⟨[], rfl, ?_⟩
  simp [Chain.idle, seqFlatten]

theorem chainInv_enq (enq : List SeqUnit) (c : Chain) (tr : List (Nat × Nat))
    (st : List (Nat × Bool)) (u : SeqUnit) (h : ChainInv enq c tr st) :
    ChainInv (enq ++ [u]) (c.enq u) tr st := by
  obtain ⟨done, hst, hrest⟩ := h
  rcases c with ⟨running, pending⟩
  rcases running with _ | ⟨v, rem⟩
  · obtain ⟨he, ht⟩ := hrest
    exact ⟨done, hst, by simp [Chain.enq, he], ht⟩
  · obtain ⟨pre, hb, he, ht⟩ := hrest
    exact ⟨done, hst, pre, hb, by simp [Chain.enq, he], ht⟩

theorem chainInv_step (cid : String) (enq : List SeqUnit) (c : Chain)
    (tr : List (Nat × Nat)) (st : List (Nat × Bool)) (h : ChainInv enq c tr st) :
    ChainInv enq (c.stepOne cid).1 (tr ++ traceFor cid (c.stepOne cid).2)
      (st ++ settledFor cid (c.stepOne cid).2) := by
  obtain ⟨done, hst, hrest⟩ := h
  rcases c with ⟨running, pending⟩
  rcases running with _ | ⟨u, rem⟩
  · rcases pending with _ | ⟨v, ps⟩
    · obtain ⟨he, ht⟩ := hrest
      exact ⟨done, by simpa [Chain.stepOne, settledFor] using hst,
        by simp [Chain.stepOne, he], by simp [Chain.stepOne, traceFor, ht]⟩
    · obtain ⟨he, ht⟩ := hrest
      refine ⟨done, by simpa [Chain.stepOne, settledFor] using hst, [], by simp, ?_, ?_⟩
      · simpa [Chain.stepOne] using he
      · simp [Chain.stepOne, traceFor, ht]
  · rcases rem with _ | ⟨l, rest⟩
    · obtain ⟨pre, hb, he, ht⟩ := hrest
      refine ⟨done ++ [u], ?_, ?_, ?_⟩
      · simp [Chain.stepOne, settledFor, hst, seqSettled_append, seqSettled]
      · simpa [Chain.stepOne, seqFlatten_append] using he
      · have hpre : pre = u.body := by simpa using hb.symm
        simp [Chain.stepOne, traceFor, ht, hpre, seqFlatten_append, seqFlatten, unitSteps]
    · obtain ⟨pre, hb, he, ht⟩ := hrest
      refine ⟨done, by simpa [Chain.stepOne, settledFor] using hst,
        pre ++ [l], by simp [hb], ?_, ?_⟩
      · simpa [Chain.stepOne] using he
      · simp [Chain.stepOne, traceFor, ht]

theorem traceFor_stepOne_other (cid cid' : String) (h : ¬ cid = cid') (c : Chain) :
    traceFor cid' (c.stepOne cid).2 = [] ∧ settledFor cid' (c.stepOne cid).2 = [] := by
  rcases c with ⟨running, pending⟩
  rcases running with _ | ⟨u, rem⟩
  · rcases pending with _ | ⟨v, ps⟩ <;> simp [Chain.stepOne, traceFor, settledFor]
  · rcases rem with _ | ⟨l, rest⟩ <;> simp [Chain.stepOne, traceFor, settledFor, h]

theorem run_inv :
    ∀ (events : List QEvent) (s : QueueSys) (E : String → List SeqUnit)
      (T : String → List (Nat × Nat)) (S : String → List (Nat × Bool)),
      (∀ cid, ChainInv (E cid) (s.chains cid) (T cid) (S cid)) →
      ∀ cid, ChainInv (E cid ++ enqueuedFor cid events)
        ((QueueSys.run s events).1.chains cid)
        (T cid ++ traceFor cid (QueueSys.run s events).2)
        (S cid ++ settledFor cid (QueueSys.run s events).2)
  | [], s, E, T, S, h, cid => by
    simpa [QueueSys.run, enqueuedFor, traceFor, settledFor] using h cid
  | e :: es, s, E, T, S, h, cid => by
    have hnext : ∀ cid', ChainInv (E cid' ++ enqOne cid' e)
        ((s.apply e).1.chains cid')
        (T cid' ++ traceFor cid' (s.apply e).2)
        (S cid' ++ settledFor cid' (s.apply e).2) := by
      intro cid'
      rcases e with ⟨c0, u⟩ | c0 | c0
      · by_cases hc : c0 = cid'
        · subst hc
          simpa [QueueSys.apply, enqOne, traceFor, settledFor] using
            chainInv_enq _ _ _ _ u (h c0)
        · have hc' : ¬ cid' = c0 := fun h' => hc h'.symm
          simpa [QueueSys.apply, enqOne, traceFor, settledFor, hc, hc'] using h cid'
      · by_cases hc : c0 = cid'
        · subst hc
          simpa [QueueSys.apply, enqOne] using chainInv_step c0 _ _ _ _ (h c0)
        · have hc' : ¬ cid' = c0 := fun h' => hc h'.symm
          have hz := traceFor_stepOne_other c0 cid' hc (s.chains c0)
          simpa [QueueSys.apply, enqOne, hc', hz.1, hz.2] using h cid'
      · by_cases hidle : (s.chains c0).isIdle
        · have hci : s.chains c0 = Chain.idle := by
            rcases hsc : s.chains c0 with ⟨running, pending⟩
            rw [hsc] at hidle
            rcases running with _ | r <;> rcases pending with _ | ⟨v, ps⟩ <;>
              simp_all [Chain.isIdle, Chain.idle]
          by_cases hc : c0 = cid'
          · subst hc
            simpa [QueueSys.apply, hidle, enqOne, traceFor, settledFor, ← hci]
              using h c0
          · have hc' : ¬ cid' = c0 := fun h' => hc h'.symm
            simpa [QueueSys.apply, hidle, enqOne, traceFor, settledFor, hc']
              using h cid'
        · simpa [QueueSys.apply, hidle, enqOne, traceFor, settledFor] using h cid'
    have hrec := run_inv es (s.apply e).1
      (fun c => E c ++ enqOne c e)
      (fun c => T c ++ traceFor c (s.apply e).2)
      (fun c => S c ++ settledFor c (s.apply e).2) hnext cid
    simpa [QueueSys.run, enqueuedFor_cons, traceFor_append, settledFor_append,
      List.append_assoc] using hrec

theorem chainInv_prefix (enq : List SeqUnit) (c : Chain) (tr : List (Nat × Nat))
    (st : List (Nat × Bool)) (h : ChainInv enq c tr st) :
    tr <+: seqFlatten enq ∧ st <+: seqSettled enq := by
  obtain ⟨done, hst, hrest⟩ := h
  rcases c with ⟨running, pending⟩
  rcases running with _ | ⟨u, rem⟩
  · obtain ⟨he, ht⟩ := hrest
    subst he
    constructor
    · exact ht ▸ (seqFlatten_append done pending ▸ List.prefix_append _ _)
    · exact hst ▸ (seqSettled_append done pending ▸ List.prefix_append _ _)
  · obtain ⟨pre, hb, he, ht⟩ := hrest
    subst he
    constructor
    · refine ⟨rem.map (fun l => (u.uid, l)) ++ seqFlatten pending, ?_⟩
      rw [ht, seqFlatten_append, seqFlatten_cons, unitSteps, hb]
      simp
    · refine ⟨(u.uid, u.throws) :: seqSettled pending, ?_⟩
      rw [hst, seqSettled_append]
      simp [seqSettled]

theorem stepN_drain (cid : String) :
    ∀ (n : Nat) (c : Chain), chainMeasure c = n →
      c.stepN cid n = (Chain.idle, chainRemTrace cid c) := by
  intro n
  induction n with
  | zero =>
    intro c hc
    rcases c with ⟨running, pending⟩
    rcases running with _ | ⟨u, rem⟩
    · rcases pending with _ | ⟨v, ps⟩
      · simp [Chain.stepN, Chain.idle, chainRemTrace]
      · simp [chainMeasure] at hc
    · simp [chainMeasure] at hc
  | succ n ih =>
    intro c hc
    rcases c with ⟨running, pending⟩
    rcases running with _ | ⟨u, rem⟩
    · rcases pending with _ | ⟨v, ps⟩
      · simp [chainMeasure] at hc
      · have hm : chainMeasure ⟨some (v, v.body), ps⟩ = n := by
          simp [chainMeasure] at hc ⊢; omega
        simp only [Chain.stepN, Chain.stepOne]
        rw [ih _ hm]
        simp [chainRemTrace]
    · rcases rem with _ | ⟨l, rest⟩
      · have hm : chainMeasure ⟨none, pending⟩ = n := by
          simp [chainMeasure] at hc ⊢; omega
        simp only [Chain.stepN, Chain.stepOne]
        rw [ih _ hm]
        simp [chainRemTrace]
      · have hm : chainMeasure ⟨some (u, rest), pending⟩ = n := by
          simp [chainMeasure] at hc ⊢; omega
        simp only [Chain.stepN, Chain.stepOne]
        rw [ih _ hm]
        simp [chainRemTrace]

theorem run_append :
    ∀ (es1 es2 : List QEvent) (s : QueueSys),
      QueueSys.run s (es1 ++ es2)
        = ((QueueSys.run (QueueSys.run s es1).1 es2).1,
           (QueueSys.run s es1).2 ++ (QueueSys.run (QueueSys.run s es1).1 es2).2)
  | [], es2, s => by simp [QueueSys.run]
  | e :: es1, es2, s => by
    simp [QueueSys.run, run_append es1 es2 (s.apply e).1, List.append_assoc]

theorem run_replicate_step (cid : String) :
    ∀ (n : Nat) (s : QueueSys),
      (QueueSys.run s (List.replicate n (QEvent.step cid))).1.chains cid
          = ((s.chains cid).stepN cid n).1
      ∧ (QueueSys.run s (List.replicate n (QEvent.step cid))).2
          = ((s.chains cid).stepN cid n).2
  | 0, s => by simp [QueueSys.run, Chain.stepN]
  | n + 1, s => by
    have ih := run_replicate_step cid n (s.apply (QEvent.step cid)).1
    have hchain : (s.apply (QEvent.step cid)).1.chains cid
        = ((s.chains cid).stepOne cid).1 := by
      simp [QueueSys.apply]
    have htr : (s.apply (QEvent.step cid)).2 = ((s.chains cid).stepOne cid).2 := by
      simp [QueueSys.apply]
    rw [hchain] at ih
    constructor
    · simp [List.replicate_succ, QueueSys.run, Chain.stepN, ih.1]
    · simp [List.replicate_succ, QueueSys.run, Chain.stepN, ih.2, htr]

theorem traceFor_exec_block (cid : String) (uid : Nat) (throws : Bool)
    (body : List Nat) :
    traceFor cid (body.map (SeqTrace.exec cid uid)
        ++ [SeqTrace.settled cid uid throws]) = body.map (fun l => (uid, l)) := by
  induction body with
  | nil => simp [traceFor]
  | cons l ls ih => simpa [traceFor] using ih

theorem settledFor_exec_block (cid : String) (uid : Nat) (throws : Bool)
    (body : List Nat) :
    settledFor cid (body.map (SeqTrace.exec cid uid)
        ++ [SeqTrace.settled cid uid throws]) = [(uid, throws)] := by
  induction body with
  | nil => simp [settledFor]
  | cons l ls ih => simp [settledFor] at ih ⊢

theorem traceFor_chainRemTrace (cid : String) (c : Chain) :
    traceFor cid (chainRemTrace cid c)
      = (match c.running with
         | some (u, rem) => rem.map (fun l => (u.uid, l))
         | none => []) ++ seqFlatten c.pending := by
  rcases c with ⟨running, pending⟩
  have hpend : ∀ ps : List SeqUnit,
      traceFor cid ((ps.map (fun u => u.body.map (SeqTrace.exec cid u.uid)
        ++ [SeqTrace.settled cid u.uid u.throws])).flatten) = seqFlatten ps := by
    intro ps
    induction ps with
    | nil => simp [traceFor, seqFlatten]
    | cons v vs ih =>
      rw [List.map_cons, List.flatten_cons, traceFor_append, traceFor_exec_block,
        ih, seqFlatten_cons, unitSteps]
  rcases running with _ | ⟨u, rem⟩
  · simpa [chainRemTrace] using hpend pending
  · simp only [chainRemTrace]
    rw [traceFor_append, traceFor_exec_block, hpend pending]

theorem settledFor_chainRemTrace (cid : String) (c : Chain) :
    settledFor cid (chainRemTrace cid c)
      = (match c.running with
         | some (u, _) => [(u.uid, u.throws)]
         | none => []) ++ seqSettled c.pending := by
  rcases c with ⟨running, pending⟩
  have hpend : ∀ ps : List SeqUnit,
      settledFor cid ((ps.map (fun u => u.body.map (SeqTrace.exec cid u.uid)
        ++ [SeqTrace.settled cid u.uid u.throws])).flatten) = seqSettled ps := by
    intro ps
    induction ps with
    | nil => simp [settledFor, seqSettled]
    | cons v vs ih =>
      rw [List.map_cons, List.flatten_cons, settledFor_append, settledFor_exec_block,
        ih]
      simp [seqSettled]
  rcases running with _ | ⟨u, rem⟩
  · simpa [chainRemTrace] using hpend pending
  · simp only [chainRemTrace]
    rw [settledFor_append, settledFor_exec_block, hpend pending]

/-- C2: for every contest id and every interleaving of enqueue calls and
scheduler steps, the steps executed for that id form a prefix of running the
enqueued units strictly one after the other in enqueue order (so a
later-enqueued unit never starts before an earlier one has completed, even
when enqueue is called while units are in flight), units settle in enqueue
order with a throwing unit caught (marked, not propagated), and — given
enough scheduler steps — every enqueued unit runs to completion, including
every unit enqueued after a throwing one. -/
theorem C2_sequencer_fifo_isolation (events : List QEvent) (cid : String) :
    traceFor cid (QueueSys.run QueueSys.init events).2
        <+: seqFlatten (enqueuedFor cid events)
    ∧ settledFor cid (QueueSys.run QueueSys.init events).2
        <+: seqSettled (enqueuedFor cid events)
    ∧ ∃ n : Nat,
        traceFor cid (QueueSys.run QueueSys.init
            (events ++ List.replicate n (QEvent.step cid))).2
          = seqFlatten (enqueuedFor cid events)
        ∧ settledFor cid (QueueSys.run QueueSys.init
            (events ++ List.replicate n (QEvent.step cid))).2
          = seqSettled (enqueuedFor cid events) := by
  have hinv := run_inv events QueueSys.init (fun _ => []) (fun _ => []) (fun _ => [])
    (fun _ => chainInv_init) cid
  simp only [List.nil_append] at hinv
  have hpre := chainInv_prefix _ _ _ _ hinv
  refine ⟨hpre.1, hpre.2,
    chainMeasure ((QueueSys.run QueueSys.init events).1.chains cid), ?_, ?_⟩
  · have htotal : (QueueSys.run QueueSys.init (events ++ List.replicate
        (chainMeasure ((QueueSys.run QueueSys.init events).1.chains cid))
        (QEvent.step cid))).2
        = (QueueSys.run QueueSys.init events).2
          ++ (QueueSys.run (QueueSys.run QueueSys.init events).1 (List.replicate
            (chainMeasure ((QueueSys.run QueueSys.init events).1.chains cid))
            (QEvent.step cid))).2 := by
      rw [run_append]
    have hdr : (((QueueSys.run QueueSys.init events).1.chains cid).stepN cid
        (chainMeasure ((QueueSys.run QueueSys.init events).1.chains cid))).2
        = chainRemTrace cid ((QueueSys.run QueueSys.init events).1.chains cid) := by
      rw [stepN_drain cid _ _ rfl]
    rw [htotal, traceFor_append,
      (run_replicate_step cid
        (chainMeasure ((QueueSys.run QueueSys.init events).1.chains cid))
        (QueueSys.run QueueSys.init events).1).2,
      hdr, traceFor_chainRemTrace]
    obtain ⟨done, hst, hrest⟩ := hinv
    rcases hr : ((QueueSys.run QueueSys.init events).1.chains cid).running
        with _ | ⟨u, rem⟩ <;> rw [hr] at hrest
    · obtain ⟨he, ht⟩ := hrest
      rw [ht, he, seqFlatten_append]
      simp
    · obtain ⟨pre, hb, he, ht⟩ := hrest
      rw [ht, he, seqFlatten_append, seqFlatten_cons, unitSteps, hb]
      simp [List.append_assoc]
  · have htotal : (QueueSys.run QueueSys.init (events ++ List.replicate
        (chainMeasure ((QueueSys.run QueueSys.init events).1.chains cid))
        (QEvent.step cid))).2
        = (QueueSys.run QueueSys.init events).2
          ++ (QueueSys.run (QueueSys.run QueueSys.init events).1 (List.replicate
            (chainMeasure ((QueueSys.run QueueSys.init events).1.chains cid))
            (QEvent.step cid))).2 := by
      rw [run_append]
    have hdr : (((QueueSys.run QueueSys.init events).1.chains cid).stepN cid
        (chainMeasure ((QueueSys.run QueueSys.init events).1.chains cid))).2
        = chainRemTrace cid ((QueueSys.run QueueSys.init events).1.chains cid) := by
      rw [stepN_drain cid _ _ rfl]
    rw [htotal, settledFor_append,
      (run_replicate_step cid
        (chainMeasure ((QueueSys.run QueueSys.init events).1.chains cid))
        (QueueSys.run QueueSys.init events).1).2,
      hdr, settledFor_chainRemTrace]
    obtain ⟨done, hst, hrest⟩ := hinv
    rcases hr : ((QueueSys.run QueueSys.init events).1.chains cid).running
        with _ | ⟨u, rem⟩ <;> rw [hr] at hrest
    · obtain ⟨he, ht⟩ := hrest
      rw [hst, he, seqSettled_append]
      simp
    · obtain ⟨pre, hb, he, ht⟩ := hrest
      rw [hst, he, seqSettled_append]
      simp [seqSettled]

end CfCph
